import Mathlib

/-!
Verification of the SQL statement splitter and the display-truncation
helper from `src/database/init.go` (`parseSQL`, `truncateStatement`).

The Go code converts the input to a rune slice (`[]rune(content)`) before
scanning, so the splitter is embedded over `List Char`, one `Char` per
Unicode code point.  `truncateStatement`, in contrast, works on the raw
UTF-8 bytes of a Go string (`len`, `stmt[:k]`), so it is embedded over the
UTF-8 byte sequence of its argument; the possible slice-bounds panic of
`stmt[:maxLen-3]` is modelled by an `Option` result.
-/

namespace CaddyDuckDB

/-- Go's `unicode.IsSpace` on the code points it recognises as white space
(the Latin-1 ones plus the Unicode `White_Space` property). -/
def goIsSpace (c : Char) : Bool :=
  c = ' ' || c = '\t' || c = '\n' || c.toNat = 0x0B || c.toNat = 0x0C ||
  c = '\r' || c.toNat = 0x85 || c.toNat = 0xA0 ||
  c.toNat = 0x1680 ||
  (0x2000 ≤ c.toNat && c.toNat ≤ 0x200A) ||
  c.toNat = 0x2028 || c.toNat = 0x2029 || c.toNat = 0x202F ||
  c.toNat = 0x205F || c.toNat = 0x3000

/-- Go's `strings.TrimSpace`: remove leading and trailing white space. -/
def trimSpace (l : List Char) : List Char :=
  (l.dropWhile goIsSpace).rdropWhile goIsSpace

/-- The emission step of `parseSQL`: trim the accumulator and emit it as a
statement only when the trimmed text is non-empty (both at a `;` and at
end-of-input). -/
def emitTrimmed (acc : List Char) : List (List Char) :=
  let s := trimSpace acc
  if s = [] then [] else [s]

/-- The four mutually exclusive lexical modes of the scanner, given in the
Go source by the booleans `inString`, `inBlockComment`, `inLineComment`
(all false = normal mode). -/
inductive Mode where
  | normal
  | inString
  | inLineComment
  | inBlockComment
deriving DecidableEq, Repr

/-- The scanning loop of `parseSQL` over the rune slice: one pass, one
character of lookahead.  `acc` is the `currentStmt` builder, `stmts` the
statements emitted so far. -/
def runLoop : List Char → Mode → List Char → List (List Char) → List (List Char)
  | [], _, acc, stmts => stmts ++ emitTrimmed acc
  | '\n' :: rest, Mode.inLineComment, acc, stmts =>
      runLoop rest Mode.normal (acc ++ ['\n']) stmts
  | _ :: rest, Mode.inLineComment, acc, stmts =>
      runLoop rest Mode.inLineComment acc stmts
  | '*' :: '/' :: rest, Mode.inBlockComment, acc, stmts =>
      runLoop rest Mode.normal acc stmts
  | _ :: rest, Mode.inBlockComment, acc, stmts =>
      runLoop rest Mode.inBlockComment acc stmts
  | '\'' :: '\'' :: rest, Mode.inString, acc, stmts =>
      runLoop rest Mode.inString (acc ++ ['\'', '\'']) stmts
  | '\'' :: rest, Mode.inString, acc, stmts =>
      runLoop rest Mode.normal (acc ++ ['\'']) stmts
  | c :: rest, Mode.inString, acc, stmts =>
      runLoop rest Mode.inString (acc ++ [c]) stmts
  | '\'' :: rest, Mode.normal, acc, stmts =>
      runLoop rest Mode.inString (acc ++ ['\'']) stmts
  | '-' :: '-' :: rest, Mode.normal, acc, stmts =>
      runLoop rest Mode.inLineComment acc stmts
  | '/' :: '*' :: rest, Mode.normal, acc, stmts =>
      runLoop rest Mode.inBlockComment acc stmts
  | ';' :: rest, Mode.normal, acc, stmts =>
      runLoop rest Mode.normal [] (stmts ++ emitTrimmed acc)
  | c :: rest, Mode.normal, acc, stmts =>
      runLoop rest Mode.normal (acc ++ [c]) stmts

/-- `parseSQL` on the decoded rune sequence: scan from the initial state. -/
def parseSQLList (content : List Char) : List (List Char) :=
  runLoop content Mode.normal [] []

/-- Go's `parseSQL(content string) ([]string, error)`: the function body
ends in `return statements, nil` and contains no other `return`, so the
error component is always `none`. -/
def parseSQL (content : String) : List String × Option String :=
  ((parseSQLList content.data).map fun l => String.mk l, none)

/-- A text with none of the splitter's special syntax: no statement
terminator `;`, no string-literal quote, and no comment-introducing
two-character sequence `--` or `/*`. -/
def plainText : List Char → Bool
  | [] => true
  | c :: rest =>
      !(c == ';') && !(c == '\'') &&
      !(c == '-' && rest.head? == some '-') &&
      !(c == '/' && rest.head? == some '*') &&
      plainText rest

/-- The accumulator step of Go's `strings.Fields`: split around runs of
white space, collecting the current word in reverse in `cur`. -/
def fieldsAux : List Char → List Char → List (List Char)
  | [], cur => if cur = [] then [] else [cur.reverse]
  | c :: rest, cur =>
      if goIsSpace c then
        if cur = [] then fieldsAux rest []
        else cur.reverse :: fieldsAux rest []
      else fieldsAux rest (c :: cur)

/-- Go's `strings.Fields`: the maximal white-space-free words of a text. -/
def fields (l : List Char) : List (List Char) := fieldsAux l []

/-- `strings.Join(strings.Fields(stmt), " ")` from `truncateStatement`:
collapse every white-space run to a single space and trim both ends. -/
def collapseWS (l : List Char) : List Char := List.intercalate [' '] (fields l)

/-- The UTF-8 encoding of one code point, as Go stores it in a `string`. -/
def utf8Bytes (c : Char) : List Nat :=
  let n := c.toNat
  if n < 0x80 then [n]
  else if n < 0x800 then
    [0xC0 + n / 0x40, 0x80 + n % 0x40]
  else if n < 0x10000 then
    [0xE0 + n / 0x1000, 0x80 + n / 0x40 % 0x40, 0x80 + n % 0x40]
  else
    [0xF0 + n / 0x40000, 0x80 + n / 0x1000 % 0x40, 0x80 + n / 0x40 % 0x40,
     0x80 + n % 0x40]

/-- The UTF-8 byte sequence of a code-point sequence: the raw bytes a Go
`string` holds, which `len` and slicing operate on. -/
def utf8Encode (l : List Char) : List Nat := l.flatMap utf8Bytes

/-- The byte offsets of the code-point boundaries of a text's UTF-8
encoding: offset `0` plus the cumulative byte lengths of each code point.
A byte offset not in this list falls strictly inside the encoding of some
code point. -/
def utf8Boundaries : List Char → List Nat
  | [] => [0]
  | c :: rest => 0 :: (utf8Boundaries rest).map (· + (utf8Bytes c).length)

/-- Go's `truncateStatement(stmt string, maxLen int) string`, embedded over
the UTF-8 bytes of the Go string: `strings.Join(strings.Fields(stmt), " ")`
collapses white space, `len(stmt)` is the byte length, and `stmt[:maxLen-3]`
slices bytes — panicking (modelled as `none`) when `maxLen-3` is negative. -/
def truncateStatement (stmt : List Char) (maxLen : Int) : Option (List Nat) :=
  if ((utf8Encode (collapseWS stmt)).length : Int) ≤ maxLen then
    some (utf8Encode (collapseWS stmt))
  else if 0 ≤ maxLen - 3 then
    some ((utf8Encode (collapseWS stmt)).take (maxLen - 3).toNat ++ [46, 46, 46])
  else none

example : parseSQL "SELECT 'a;b;c';" = (["SELECT 'a;b;c'"], none) := by decide

example : parseSQL "SELECT /* comment */ 1;" = (["SELECT  1"], none) := by decide

example : truncateStatement "SELECT\n  id,\n  name\nFROM users".data 50 =
    some (utf8Encode "SELECT id, name FROM users".data) := by decide

/-! ## Helper lemmas -/

/-- The first element surviving a `dropWhile` fails the predicate. -/
theorem dropWhile_head_false {α : Type} (p : α → Bool) :
    ∀ (l : List α) (a : α) (t : List α), l.dropWhile p = a :: t → p a = false := by
  intro l
  induction l with
  | nil => intro a t h; simp at h
  | cons c r ih =>
    intro a t h
    rw [List.dropWhile_cons] at h
    by_cases hp : p c
    · rw [if_pos hp] at h; exact ih a t h
    · rw [if_neg hp] at h
      obtain ⟨rfl, -⟩ := List.cons.injEq c r a t ▸ h
      simpa using hp

/-- `trimSpace` leaves no leading white space: `dropWhile` is a no-op on a
trimmed text. -/
theorem dropWhile_trimSpace (l : List Char) :
    (trimSpace l).dropWhile goIsSpace = trimSpace l := by
  cases h : trimSpace l with
  | nil => simp
  | cons a t =>
    have hpre : trimSpace l <+: l.dropWhile goIsSpace :=
      List.rdropWhile_prefix goIsSpace (l.dropWhile goIsSpace)
    obtain ⟨r, hr⟩ := hpre
    have hd : l.dropWhile goIsSpace = a :: (t ++ r) := by
      rw [← hr, h]; simp
    have hhead : goIsSpace a = false :=
      dropWhile_head_false goIsSpace l a (t ++ r) hd
    simp [List.dropWhile_cons, hhead]

/-- `trimSpace` is idempotent: a trimmed text has no surrounding white
space left to remove. -/
theorem trimSpace_idem (l : List Char) : trimSpace (trimSpace l) = trimSpace l := by
  have h1 : trimSpace (trimSpace l) =
      ((trimSpace l).dropWhile goIsSpace).rdropWhile goIsSpace := rfl
  rw [h1, dropWhile_trimSpace l]
  show ((l.dropWhile goIsSpace).rdropWhile goIsSpace).rdropWhile goIsSpace = _
  exact List.rdropWhile_idempotent goIsSpace (l.dropWhile goIsSpace)

/-- Every statement produced by the emission step is non-empty and equal
to its own trim. -/
theorem emitTrimmed_good (acc : List Char) :
    ∀ s ∈ emitTrimmed acc, s ≠ [] ∧ trimSpace s = s := by
  intro s hs
  unfold emitTrimmed at hs
  by_cases h : trimSpace acc = []
  · simp [h] at hs
  · simp [h] at hs
    subst hs
    exact ⟨h, trimSpace_idem acc⟩

/-- Loop invariant: when every statement already collected is non-empty and
trimmed, so is every statement the scan eventually returns, in every mode. -/
theorem runLoop_good (input : List Char) (mode : Mode) (acc : List Char)
    (stmts : List (List Char)) :
    (∀ s ∈ stmts, s ≠ [] ∧ trimSpace s = s) →
    ∀ s ∈ runLoop input mode acc stmts, s ≠ [] ∧ trimSpace s = s := by
  induction input, mode, acc, stmts using runLoop.induct with
  | case1 mode acc stmts =>
    intro h s hs
    rw [runLoop] at hs
    rcases List.mem_append.mp hs with h1 | h2
    · exact h s h1
    · exact emitTrimmed_good acc s h2
  | case2 rest acc stmts ih =>
    intro h s hs
    rw [runLoop] at hs
    exact ih h s hs
  | case3 c rest acc stmts hne ih =>
    intro h s hs
    rw [runLoop.eq_3 _ _ _ _ hne] at hs
    exact ih h s hs
  | case4 rest acc stmts ih =>
    intro h s hs
    rw [runLoop] at hs
    exact ih h s hs
  | case5 c rest acc stmts hne ih =>
    intro h s hs
    rw [runLoop.eq_5 _ _ _ _ hne] at hs
    exact ih h s hs
  | case6 rest acc stmts ih =>
    intro h s hs
    rw [runLoop] at hs
    exact ih h s hs
  | case7 rest acc stmts hne ih =>
    intro h s hs
    rw [runLoop.eq_7 _ _ _ hne] at hs
    exact ih h s hs
  | case8 c rest acc stmts hne1 hne2 ih =>
    intro h s hs
    rw [runLoop.eq_8 _ _ _ _ hne1 hne2] at hs
    exact ih h s hs
  | case9 rest acc stmts ih =>
    intro h s hs
    rw [runLoop] at hs
    exact ih h s hs
  | case10 rest acc stmts ih =>
    intro h s hs
    rw [runLoop] at hs
    exact ih h s hs
  | case11 rest acc stmts ih =>
    intro h s hs
    rw [runLoop] at hs
    exact ih h s hs
  | case12 rest acc stmts ih =>
    intro h s hs
    rw [runLoop] at hs
    refine ih ?_ s hs
    intro u hu
    rcases List.mem_append.mp hu with h1 | h2
    · exact h u h1
    · exact emitTrimmed_good acc u h2
  | case13 c rest acc stmts hne1 hne2 hne3 hne4 ih =>
    intro h s hs
    rw [runLoop.eq_13 _ _ _ _ hne1 hne2 hne3 hne4] at hs
    exact ih h s hs

/-- One scan step in normal mode on an ordinary character: it is appended
to the accumulator and scanning continues in normal mode. -/
theorem runLoop_normal_step (c : Char) (rest acc : List Char)
    (stmts : List (List Char)) (h1 : c ≠ '\'') (h2 : c ≠ ';')
    (h3 : ¬(c = '-' ∧ rest.head? = some '-'))
    (h4 : ¬(c = '/' ∧ rest.head? = some '*')) :
    runLoop (c :: rest) Mode.normal acc stmts =
      runLoop rest Mode.normal (acc ++ [c]) stmts := by
  refine runLoop.eq_13 acc stmts c rest (fun hc => h1 hc) ?_ ?_ (fun hc => h2 hc)
  · intro r1 hc hr
    exact h3 ⟨hc, by rw [hr]; rfl⟩
  · intro r1 hc hr
    exact h4 ⟨hc, by rw [hr]; rfl⟩

/-- Scanning plain text in normal mode appends every character to the
accumulator and emits the trimmed accumulator at end-of-input. -/
theorem runLoop_plain (t : List Char) :
    ∀ (acc : List Char) (stmts : List (List Char)), plainText t = true →
      runLoop t Mode.normal acc stmts = stmts ++ emitTrimmed (acc ++ t) := by
  induction t with
  | nil =>
    intro acc stmts _
    rw [runLoop]
    simp
  | cons c rest ih =>
    intro acc stmts h
    rw [plainText] at h
    simp only [Bool.and_eq_true, Bool.not_eq_true', beq_eq_false_iff_ne, ne_eq,
      Bool.and_eq_false_iff, beq_iff_eq] at h
    obtain ⟨⟨⟨⟨hsemi, hquote⟩, hdash⟩, hslash⟩, hrest⟩ := h
    rw [runLoop_normal_step c rest acc stmts hquote hsemi ?_ ?_]
    · rw [ih (acc ++ [c]) stmts hrest]
      simp
    · intro ⟨hc, hr⟩
      rcases hdash with h' | h'
      · exact h' hc
      · exact h' hr
    · intro ⟨hc, hr⟩
      rcases hslash with h' | h'
      · exact h' hc
      · exact h' hr

/-- In line-comment mode every character before the next newline is
discarded; the newline itself is appended and scanning resumes in normal
mode. -/
theorem runLoop_lineComment_newline (pre : List Char) :
    ∀ (post acc : List Char) (stmts : List (List Char)),
      (∀ c ∈ pre, c ≠ '\n') →
      runLoop (pre ++ '\n' :: post) Mode.inLineComment acc stmts =
        runLoop post Mode.normal (acc ++ ['\n']) stmts := by
  induction pre with
  | nil =>
    intro post acc stmts _
    rw [List.nil_append, runLoop]
  | cons c pre' ih =>
    intro post acc stmts h
    have hc : c ≠ '\n' := h c (List.mem_cons_self c pre')
    rw [List.cons_append, runLoop.eq_3 _ _ _ _ (fun he => hc he)]
    exact ih post acc stmts (fun d hd => h d (List.mem_cons_of_mem c hd))

/-- Reaching end-of-input in line-comment mode ends the comment without a
terminating newline: the remaining characters are discarded and the current
accumulator is emitted as usual. -/
theorem runLoop_lineComment_eof (pre : List Char) :
    ∀ (acc : List Char) (stmts : List (List Char)),
      (∀ c ∈ pre, c ≠ '\n') →
      runLoop pre Mode.inLineComment acc stmts = stmts ++ emitTrimmed acc := by
  induction pre with
  | nil =>
    intro acc stmts _
    rw [runLoop]
  | cons c pre' ih =>
    intro acc stmts h
    have hc : c ≠ '\n' := h c (List.mem_cons_self c pre')
    rw [runLoop.eq_3 _ _ _ _ (fun he => hc he)]
    exact ih acc stmts (fun d hd => h d (List.mem_cons_of_mem c hd))

/-! ## Claim theorems -/

/-- Claim C1: inside a single-quoted string literal the terminator and
comment sequences are literal text: `Split("SELECT 'a;b;c';")` is
`["SELECT 'a;b;c'"]`, the doubled quote in `'it''s working'` is preserved
verbatim without ending the string, and comment-looking text inside a
string never starts a comment. -/
theorem parseSQL_string_masking :
    parseSQL "SELECT 'a;b;c';" = (["SELECT 'a;b;c'"], none) ∧
    parseSQL "SELECT 'it''s working';" = (["SELECT 'it''s working'"], none) ∧
    parseSQL "SELECT '-- not a comment'; SELECT '/* also not */';" =
      (["SELECT '-- not a comment'", "SELECT '/* also not */'"], none) := by
  refine ⟨by decide, by decide, by decide⟩

/-- Claim C2: on text with no terminator, no comment syntax and no string
quote, `Split` returns the single trimmed statement, or nothing when the
trim is empty. -/
theorem parseSQL_plain_single (t : List Char) (h : plainText t = true) :
    parseSQLList t = if trimSpace t = [] then [] else [trimSpace t] := by
  have hrun := runLoop_plain t [] [] h
  rw [parseSQLList, hrun, List.nil_append, List.nil_append]
  rfl

/-- Witness for C2 at the concrete plain text `"  SELECT 1  "`. -/
theorem parseSQL_plain_single_witness :
    parseSQLList "  SELECT 1  ".data =
      if trimSpace "  SELECT 1  ".data = [] then []
      else [trimSpace "  SELECT 1  ".data] :=
  parseSQL_plain_single "  SELECT 1  ".data (by decide)

/-- Claim C3: a trailing terminator is optional, and splitting preserves
order and count: three terminated statements come back as three statements
in input order. -/
theorem parseSQL_terminators :
    parseSQL "SELECT 1;" = (["SELECT 1"], none) ∧
    parseSQL "SELECT 1" = (["SELECT 1"], none) ∧
    parseSQL "SELECT 1; SELECT 2; SELECT 3;" =
      (["SELECT 1", "SELECT 2", "SELECT 3"], none) := by
  refine ⟨by decide, by decide, by decide⟩

/-- Claim C4: a block comment is excised and replaced by nothing, so
`Split("SELECT /* comment */ 1;")` keeps exactly the two spaces that
already surrounded the comment. -/
theorem parseSQL_block_comment_excision :
    parseSQL "SELECT /* comment */ 1;" = (["SELECT  1"], none) := by decide

/-- Claim C5: in line-comment mode every character up to the newline is
discarded, the newline itself is appended and scanning returns to normal
mode; a line comment that reaches end-of-input simply ends, so
`Split("-- comment only")` is empty. -/
theorem parseSQL_line_comment_mode :
    (∀ (pre post acc : List Char) (stmts : List (List Char)),
      (∀ c ∈ pre, c ≠ '\n') →
      runLoop (pre ++ '\n' :: post) Mode.inLineComment acc stmts =
        runLoop post Mode.normal (acc ++ ['\n']) stmts) ∧
    (∀ (pre acc : List Char) (stmts : List (List Char)),
      (∀ c ∈ pre, c ≠ '\n') →
      runLoop pre Mode.inLineComment acc stmts = stmts ++ emitTrimmed acc) ∧
    parseSQL "-- comment only" = ([], none) :=
  ⟨fun pre post acc stmts h => runLoop_lineComment_newline pre post acc stmts h,
   fun pre acc stmts h => runLoop_lineComment_eof pre acc stmts h,
   by decide⟩

/-- Witness for C5 at a concrete comment body `"ab"` before a newline and
a concrete comment `"tail text"` reaching end-of-input. -/
theorem parseSQL_line_comment_mode_witness :
    runLoop ("ab".data ++ '\n' :: "SELECT 1;".data) Mode.inLineComment [] [] =
      runLoop "SELECT 1;".data Mode.normal ([] ++ ['\n']) [] ∧
    runLoop "tail text".data Mode.inLineComment "SELECT 2".data [] =
      [] ++ emitTrimmed "SELECT 2".data :=
  ⟨parseSQL_line_comment_mode.1 "ab".data "SELECT 1;".data [] [] (by decide),
   parseSQL_line_comment_mode.2.1 "tail text".data "SELECT 2".data [] (by decide)⟩

/-- Claim C6: every statement `Split` emits, at a terminator or at
end-of-input, is non-empty and equal to its own trim (no leading or
trailing white space; all-whitespace candidates are filtered out). -/
theorem parseSQL_output_trimmed_nonempty (content : List Char) :
    ∀ s ∈ parseSQLList content, s ≠ [] ∧ trimSpace s = s :=
  runLoop_good content Mode.normal [] [] (by simp)

/-- Witness for C6: the statement emitted for `"  SELECT 1 ;  "`. -/
theorem parseSQL_output_trimmed_nonempty_witness :
    "SELECT 1".data ≠ [] ∧ trimSpace "SELECT 1".data = "SELECT 1".data :=
  parseSQL_output_trimmed_nonempty "  SELECT 1 ;  ".data "SELECT 1".data (by decide)

/-- Claim C7: `parseSQL` is total and its error component is always `nil`;
unterminated strings and comments silently consume to end-of-input. -/
theorem parseSQL_total_no_error :
    (∀ content : String, (parseSQL content).2 = none) ∧
    parseSQL "SELECT 'unterminated" = (["SELECT 'unterminated"], none) ∧
    parseSQL "SELECT /* unterminated" = (["SELECT"], none) ∧
    parseSQL "SELECT -- unterminated" = (["SELECT"], none) := by
  refine ⟨fun content => rfl, by decide, by decide, by decide⟩

/-- Counterexample to C8 as stated: collapsing `"ééé"` gives a text of
three characters, which is at most `maxLen = 5`, yet `truncateStatement`
does not return it unchanged — Go's `len` and slicing count UTF-8 bytes
(here six), not characters, so the function truncates to the first two
bytes plus `...`. -/
theorem truncateStatement_char_counterexample :
    (collapseWS "ééé".data).length = 3 ∧
    truncateStatement "ééé".data 5 ≠ some (utf8Encode (collapseWS "ééé".data)) ∧
    truncateStatement "ééé".data 5 = some [195, 169, 46, 46, 46] := by
  refine ⟨by decide, by decide, by decide⟩

/-- Claim C8 as amended: for `maxLen ≥ 3`, `truncateStatement` collapses
white-space runs to single spaces and trims; if the collapsed string's
UTF-8 byte length is at most `maxLen` it is returned unchanged, otherwise
the result is its first `maxLen - 3` bytes (not characters) followed by
`...`, of byte length exactly `maxLen`; in all cases the result's byte
length is at most `maxLen`. -/
theorem truncateStatement_byte_semantics (s : List Char) (maxLen : Int)
    (h : 3 ≤ maxLen) :
    ∃ bs, truncateStatement s maxLen = some bs ∧ (bs.length : Int) ≤ maxLen ∧
      (((utf8Encode (collapseWS s)).length : Int) ≤ maxLen →
        bs = utf8Encode (collapseWS s)) ∧
      (maxLen < ((utf8Encode (collapseWS s)).length : Int) →
        (bs.length : Int) = maxLen ∧
        bs = (utf8Encode (collapseWS s)).take (maxLen - 3).toNat ++ [46, 46, 46]) := by
  by_cases hle : ((utf8Encode (collapseWS s)).length : Int) ≤ maxLen
  · refine ⟨utf8Encode (collapseWS s), ?_, hle, fun _ => rfl,
      fun hgt => absurd hle (not_le.mpr hgt)⟩
    rw [truncateStatement, if_pos hle]
  · have hlt : maxLen < ((utf8Encode (collapseWS s)).length : Int) := not_le.mp hle
    have h0 : 0 ≤ maxLen - 3 := by omega
    have hk : (maxLen - 3).toNat ≤ (utf8Encode (collapseWS s)).length := by omega
    have hlen : (((utf8Encode (collapseWS s)).take (maxLen - 3).toNat ++
        [46, 46, 46]).length : Int) = maxLen := by
      rw [List.length_append, List.length_take, min_eq_left hk]
      simp only [List.length_cons, List.length_nil]
      omega
    refine ⟨(utf8Encode (collapseWS s)).take (maxLen - 3).toNat ++ [46, 46, 46],
      ?_, le_of_eq hlen, fun hc => absurd hc hle, fun _ => ⟨hlen, rfl⟩⟩
    rw [truncateStatement, if_neg hle, if_pos h0]

/-- Witness for the amended C8 at the concrete statement `"abcdefgh"` and
`maxLen = 5`: the collapsed byte length 8 exceeds 5, so the result is the
first two bytes plus `...`, of byte length exactly 5. -/
theorem truncateStatement_byte_semantics_witness :
    ∃ bs, truncateStatement "abcdefgh".data 5 = some bs ∧
      (bs.length : Int) ≤ 5 ∧
      (((utf8Encode (collapseWS "abcdefgh".data)).length : Int) ≤ 5 →
        bs = utf8Encode (collapseWS "abcdefgh".data)) ∧
      ((5 : Int) < ((utf8Encode (collapseWS "abcdefgh".data)).length : Int) →
        (bs.length : Int) = 5 ∧
        bs = (utf8Encode (collapseWS "abcdefgh".data)).take ((5 : Int) - 3).toNat ++
          [46, 46, 46]) :=
  truncateStatement_byte_semantics "abcdefgh".data 5 (by decide)

/-- Counterexample to C9 as stated: `truncateStatement` slices at byte
offset `maxLen - 3 = 1`, which is not a code-point boundary of the
collapsed text `"ééé"` (its boundaries are at byte offsets 0, 2, 4, 6), so
the truncation cuts the two-byte character `é` in the middle, leaving the
lone lead byte 195. -/
theorem truncateStatement_splits_multibyte :
    truncateStatement "ééé".data 4 = some [195, 46, 46, 46] ∧
    utf8Boundaries (collapseWS "ééé".data) = [0, 2, 4, 6] ∧
    ¬ (1 ∈ utf8Boundaries (collapseWS "ééé".data)) := by
  refine ⟨by decide, by decide, by decide⟩

/-- Claim C9 as amended: the splitter's scan (with its one-character
lookahead) operates on Unicode code points — the Go code decodes the input
with `[]rune(content)` before scanning, so multi-byte characters pass
through statements intact — but `truncateStatement`'s truncation operates
on raw UTF-8 bytes: its cut offset can fall strictly inside a multi-byte
character, as at offset 1 of `"ééé"` with `maxLen = 4`. -/
theorem parseSQL_codepoints_truncateStatement_bytes :
    parseSQL "SELECT 'héllo; wörld';" = (["SELECT 'héllo; wörld'"], none) ∧
    truncateStatement "ééé".data 4 =
      some ((utf8Encode (collapseWS "ééé".data)).take 1 ++ [46, 46, 46]) ∧
    ¬ ((1 : Nat) ∈ utf8Boundaries (collapseWS "ééé".data)) := by
  refine ⟨by decide, by decide, by decide⟩

/-- Claim C10: for `maxLen ≥ 4` the truncation never faults: the result is
always `some`, and in the truncation branch (entered only when the
collapsed byte length exceeds `maxLen`) the slice bound `maxLen - 3` is
non-negative and strictly below the string's byte length, so the slice is
in range. -/
theorem truncateStatement_no_panic (s : List Char) (maxLen : Int)
    (h : 4 ≤ maxLen) :
    (truncateStatement s maxLen).isSome = true ∧
    (maxLen < ((utf8Encode (collapseWS s)).length : Int) →
      0 ≤ maxLen - 3 ∧ maxLen - 3 < ((utf8Encode (collapseWS s)).length : Int)) := by
  constructor
  · rw [truncateStatement]
    split_ifs with h1 h2
    · rfl
    · rfl
    · exfalso; omega
  · intro hlt
    exact ⟨by omega, by omega⟩

/-- Witness for C10 at the concrete statement `"some quite long statement"`
and `maxLen = 4`. -/
theorem truncateStatement_no_panic_witness :
    (truncateStatement "some quite long statement".data 4).isSome = true ∧
    ((4 : Int) < ((utf8Encode (collapseWS "some quite long statement".data)).length : Int) →
      0 ≤ (4 : Int) - 3 ∧
      (4 : Int) - 3 <
        ((utf8Encode (collapseWS "some quite long statement".data)).length : Int)) :=
  truncateStatement_no_panic "some quite long statement".data 4 (by decide)

end CaddyDuckDB
